import Mathlib

/-!
Shallow embedding of the Sudoku engine in `sudoku_core.py`
(classes `SudokuSolver` and `SudokuGenerator`).

Modelling conventions:
* A grid (`numpy` 9x9 int array in the source) is a function `ℕ → ℕ → ℕ`;
  entries outside the 9x9 range are irrelevant and read as whatever the
  function returns there (concrete grids built from row lists return 0).
* The mutable solver object is a `SolverState` record: the `grid` array,
  the per-cell candidate caches (`self.cells[i][j].candidates`) and the
  per-cell `is_given` flags.  `Cell.value` always mirrors `grid[i][j]` in
  the source and is not modelled separately.
* Python sets of digits are `Finset ℕ`; Python lists are Lean lists.
* `random.shuffle` results are taken as explicit parameters (the three
  diagonal-box permutations, and the shuffled position list).
* Recursive backtracking is given an explicit fuel argument so that the
  definitions compute by kernel reduction.  Each recursive call fills one
  empty cell of the 9x9 grid, so the recursion depth never exceeds 81 and
  top-level fuel 82 is never exhausted.
-/

/-- A 9x9 Sudoku grid: `g i j` is the entry at row `i`, column `j`
(0 = empty), mirroring `self.grid` / the numpy arrays of the source. -/
def Grid : Type := ℕ → ℕ → ℕ

/-- The all-zero grid (`np.zeros((9, 9))`). -/
def emptyGrid : Grid := fun _ _ => 0

/-- Functional update of one grid entry (`grid[r, c] = v`). -/
def set_cell (g : Grid) (r c v : ℕ) : Grid :=
  fun i j => if i = r ∧ j = c then v else g i j

/-- Build a grid from a list of rows (the `List[List[int]]` puzzles of the
source); out-of-range reads give 0. -/
def gridOfList (p : List (List ℕ)) : Grid :=
  fun i j => (p.getD i []).getD j 0

/-- All 81 cell coordinates in row-major order: the iteration order of the
ubiquitous `for i in range(9): for j in range(9)` loops. -/
def allCells : List (ℕ × ℕ) :=
  (List.range 9).flatMap (fun i => (List.range 9).map (fun j => (i, j)))

/-- Number of empty cells of the grid. -/
def zeros_count (g : Grid) : ℕ :=
  allCells.countP (fun rc => decide (g rc.1 rc.2 = 0))

/-- Number of filled cells of the grid. -/
def filled_count (g : Grid) : ℕ :=
  allCells.countP (fun rc => decide (g rc.1 rc.2 ≠ 0))

/-- Row `r` of the grid as a list (`grid[r, :]`). -/
def rowList (g : Grid) (r : ℕ) : List ℕ :=
  (List.range 9).map (fun j => g r j)

/-- Column `c` of the grid as a list (`grid[:, c]`). -/
def colList (g : Grid) (c : ℕ) : List ℕ :=
  (List.range 9).map (fun i => g i c)

/-- The flattened 3x3 box with top-left corner `(br, bc)`
(`grid[br:br+3, bc:bc+3].flatten()`), in row-major order. -/
def boxList (g : Grid) (br bc : ℕ) : List ℕ :=
  (List.range 9).map (fun k => g (br + k / 3) (bc + k % 3))

/-- The values of the row containing `(r, c)`, as a set
(`set(self.grid[row, :])`). -/
def row_vals (g : Grid) (r : ℕ) : Finset ℕ :=
  (Finset.range 9).image (fun j => g r j)

/-- The values of the column containing `(r, c)`, as a set
(`set(self.grid[:, col])`). -/
def col_vals (g : Grid) (c : ℕ) : Finset ℕ :=
  (Finset.range 9).image (fun i => g i c)

/-- The values of the 3x3 box containing `(r, c)`, as a set
(`set(self.grid[box_row:box_row+3, box_col:box_col+3].flatten())`). -/
def box_vals (g : Grid) (r c : ℕ) : Finset ℕ :=
  (Finset.range 9).image (fun k => g (r / 3 * 3 + k / 3) (c / 3 * 3 + k % 3))

/-- `SudokuSolver._get_candidates`: the empty set for a filled cell,
otherwise `{1..9}` with the row, column and box values removed in turn. -/
def get_candidates (g : Grid) (r c : ℕ) : Finset ℕ :=
  if g r c ≠ 0 then ∅
  else ((Finset.Icc 1 9 \ row_vals g r) \ col_vals g c) \ box_vals g r c

/-- `is_valid` for one unit list: the non-zero entries are pairwise
distinct (the source compares `len(set(u[u != 0]))` with `len(u[u != 0])`). -/
def unit_ok (u : List ℕ) : Prop := (u.filter (fun v => v ≠ 0)).Nodup

instance (u : List ℕ) : Decidable (unit_ok u) := by
  unfold unit_ok; infer_instance

/-- `SudokuSolver.is_valid`: no row, column or 3x3 box contains a
duplicate non-zero value. -/
def is_valid (g : Grid) : Prop :=
  (∀ i < 9, unit_ok (rowList g i)) ∧
  (∀ j < 9, unit_ok (colList g j)) ∧
  (∀ bi < 3, ∀ bj < 3, unit_ok (boxList g (3 * bi) (3 * bj)))

instance (g : Grid) : Decidable (is_valid g) := by
  unfold is_valid; infer_instance

/-- `SudokuSolver.is_solved`: every cell non-zero and the grid valid. -/
def is_solved (g : Grid) : Prop :=
  (∀ rc ∈ allCells, g rc.1 rc.2 ≠ 0) ∧ is_valid g

instance (g : Grid) : Decidable (is_solved g) := by
  unfold is_solved; infer_instance

/-- `SudokuGenerator._is_safe` (and the inner `is_valid(row, col, num)` of
`SudokuSolver._backtrack_solve`): `num` appears in neither the row, the
column, nor the 3x3 box of `(row, col)`. -/
def is_safe (g : Grid) (r c n : ℕ) : Bool :=
  !(rowList g r).contains n && !(colList g c).contains n &&
    !(boxList g (r / 3 * 3) (c / 3 * 3)).contains n

/-- The first empty cell in row-major order: the cell the
`for i: for j: if grid[i, j] == 0:` backtracking loops commit to. -/
def first_empty (g : Grid) : Option (ℕ × ℕ) :=
  allCells.find? (fun rc => decide (g rc.1 rc.2 = 0))

/-- `SudokuGenerator._fill_remaining` and the nested `solve()` of
`SudokuSolver._backtrack_solve`, functionally: depth-first search that
fills the first empty cell (row-major) with the smallest value in 1..9
that is safe, recursing; `some g` is success with the completed grid,
`none` is failure (in the source every tried value is reset to 0 on
failure, so the caller observes its original grid).  The fold encodes the
early `return True` of the loop: once a branch succeeds the remaining
values are skipped.  Fuel decreases at each level; depth is bounded by
the 81 cells, so fuel 82 behaves as the unbounded source recursion. -/
def fill_remaining : ℕ → Grid → Option Grid
  | 0, _ => none
  | fuel + 1, g =>
    match first_empty g with
    | none => some g
    | some (r, c) =>
      (List.range' 1 9).foldl
        (fun res n =>
          match res with
          | some g2 => some g2
          | none => if is_safe g r c n then fill_remaining fuel (set_cell g r c n) else none)
        none

/-- `SudokuGenerator._fill_box`: write the nine entries of `nums` into the
3x3 box with top-left corner `(row, col)` in row-major order.  `nums` is
the result of `random.shuffle(list(range(1, 10)))`, passed explicitly. -/
def fill_box (g : Grid) (row col : ℕ) (nums : List ℕ) : Grid :=
  (List.range 9).foldl
    (fun g2 k => set_cell g2 (row + k / 3) (col + k % 3) (nums.getD k 0)) g

/-- `SudokuGenerator._generate_complete_grid`: fill the three diagonal
boxes from the three shuffle results, then run `_fill_remaining`.  The
source ignores the boolean returned by `_fill_remaining`; on failure the
mutations are undone, so the function returns the diagonal-only grid. -/
def generate_complete_grid (p1 p2 p3 : List ℕ) : Grid :=
  let g0 := fill_box (fill_box (fill_box emptyGrid 0 0 p1) 3 3 p2) 6 6 p3
  match fill_remaining 82 g0 with
  | some g => g
  | none => g0

/-- `SudokuGenerator._count_solutions`, functionally: accumulate complete
grids reachable from `g` into `sols`, aborting as soon as `sols` reaches
`maxSols` entries.  The fold encodes the source's early `return` checks:
once the accumulator has reached the cap, the remaining values of the
current cell are skipped. -/
def count_solutions : ℕ → Grid → List Grid → ℕ → List Grid
  | 0, _, sols, _ => sols
  | fuel + 1, g, sols, maxSols =>
    if maxSols ≤ sols.length then sols
    else
      match first_empty g with
      | none => sols ++ [g]
      | some (r, c) =>
        (List.range' 1 9).foldl
          (fun s n =>
            if maxSols ≤ s.length then s
            else if is_safe g r c n then count_solutions fuel (set_cell g r c n) s maxSols
            else s)
          sols

/-- `SudokuGenerator._has_unique_solution`: the count-mode oracle capped
at 2 finds exactly one solution.  (The solver object the source builds and
loads here is dead code: only the count is used.) -/
def has_unique_solution (p : Grid) : Prop :=
  (count_solutions 82 p [] 2).length = 1

instance (p : Grid) : Decidable (has_unique_solution p) := by
  unfold has_unique_solution; infer_instance

/-- `Difficulty` enum. -/
inductive Difficulty where
  | easy | medium | hard | expert
deriving DecidableEq

/-- The `cells_to_remove` table of `SudokuGenerator._remove_numbers`. -/
def cells_to_remove : Difficulty → ℕ
  | .easy => 30
  | .medium => 40
  | .hard => 50
  | .expert => 60

/-- One iteration of the removal loop of `_remove_numbers`: if the target
is already reached the iteration does nothing (the source breaks out of
the loop); otherwise clear the cell, keep the clearing and bump the
counter if the puzzle still has a unique solution, and restore the stored
original value if not. -/
def remove_step (d : Difficulty) (st : Grid × ℕ) (rc : ℕ × ℕ) : Grid × ℕ :=
  if cells_to_remove d ≤ st.2 then st
  else
    let original_value := st.1 rc.1 rc.2
    let p2 := set_cell st.1 rc.1 rc.2 0
    if has_unique_solution p2 then (p2, st.2 + 1)
    else (set_cell p2 rc.1 rc.2 original_value, st.2)

/-- `SudokuGenerator._remove_numbers`: fold the removal step over the
shuffled position list `positions` (a permutation of the 81 cells in the
source, passed explicitly), starting from a copy of the complete grid and
a removal counter at 0. -/
def remove_numbers (g : Grid) (d : Difficulty) (positions : List (ℕ × ℕ)) : Grid :=
  (positions.foldl (remove_step d) (g, 0)).1

/-- `SudokuGenerator.generate_puzzle`: complete grid from the three
diagonal shuffles, then removal along the shuffled positions.  (The final
`.tolist()` conversion is identity in this model.) -/
def generate_puzzle (d : Difficulty) (p1 p2 p3 : List ℕ)
    (positions : List (ℕ × ℕ)) : Grid :=
  remove_numbers (generate_complete_grid p1 p2 p3) d positions

/-- The `Technique` dataclass of the source. -/
structure Technique where
  name : String
  description : String
  cells_affected : List (ℕ × ℕ)
  values_removed : Finset ℕ
  explanation : String
deriving DecidableEq

/-- The mutable `SudokuSolver` object: the grid array, the per-cell
candidate caches (`self.cells[i][j].candidates`) and the per-cell
`is_given` flags.  (`Cell.value` mirrors `grid[i][j]` in the source and
the list `self.techniques_used` is threaded through the solve loop as an
accumulator.) -/
structure SolverState where
  grid : Grid
  cands : ℕ → ℕ → Finset ℕ
  given : ℕ → ℕ → Bool

/-- A puzzle list with the shape the 9x9 loops of the source expect:
nine rows of nine entries. -/
def wellFormed (p : List (List ℕ)) : Prop :=
  p.length = 9 ∧ ∀ row ∈ p, row.length = 9

instance (p : List (List ℕ)) : Decidable (wellFormed p) := by
  unfold wellFormed; infer_instance

/-- `SudokuSolver.load_puzzle`: replace the grid, mark non-zero cells as
given, cache `_get_candidates` for empty cells and the empty set for
filled cells.  This model is faithful exactly on `wellFormed` (9x9)
inputs: on dimension-malformed inputs the source raises an unhandled
`IndexError`/`ValueError` partway through the update, an error path this
total function (which reads 0 out of range) does not represent, so every
theorem about `load_puzzle` quantifies only over `wellFormed` inputs. -/
def load_puzzle (p : List (List ℕ)) : SolverState :=
  { grid := gridOfList p
    cands := fun i j =>
      if gridOfList p i j = 0 then get_candidates (gridOfList p) i j else ∅
    given := fun i j => decide (gridOfList p i j ≠ 0) }

/-- `SudokuSolver._update_all_candidates`: recompute the candidate cache
of every empty cell from the current grid; filled cells keep their cache. -/
def update_all_candidates (s : SolverState) : SolverState :=
  { s with
    cands := fun i j =>
      if s.grid i j = 0 then get_candidates s.grid i j else s.cands i j }

/-- A solver state whose candidate caches are freshly computed from the
grid (`get_candidates` is the empty set at filled cells, so this is the
state produced by `load_puzzle` / `_update_all_candidates`). -/
def freshState (g : Grid) : SolverState :=
  { grid := g
    cands := fun i j => get_candidates g i j
    given := fun i j => decide (g i j ≠ 0) }

/-- `list(candidates)[0]` of the source: an element of the finite set
(the head of its sorted enumeration; only used on singleton sets, where
any enumeration order gives the unique element). -/
def elt (s : Finset ℕ) : ℕ := (s.sort (fun a b => a ≤ b)).headD 0

/-- The `Technique` constructed by `_find_naked_single`. -/
def mk_naked_tech (r c v : ℕ) : Technique :=
  { name := "Naked Single"
    description := "Cell (" ++ toString (r + 1) ++ ", " ++ toString (c + 1)
      ++ ") can only contain " ++ toString v
    cells_affected := [(r, c)]
    values_removed := ∅
    explanation := "Cell (" ++ toString (r + 1) ++ ", " ++ toString (c + 1)
      ++ ") has only one possible value: " ++ toString v }

/-- `SudokuSolver._find_naked_single`: the first cell in row-major order
that is empty and has exactly one cached candidate; the reported value is
that candidate (`list(candidates)[0]`). -/
def find_naked_single (s : SolverState) : Option Technique :=
  (allCells.find? fun rc =>
      decide (s.grid rc.1 rc.2 = 0 ∧ (s.cands rc.1 rc.2).card = 1)).map
    fun rc => mk_naked_tech rc.1 rc.2 (elt (s.cands rc.1 rc.2))

/-- The `Technique` constructed by the row scan of `_find_hidden_single`. -/
def mk_hidden_row_tech (v r c : ℕ) : Technique :=
  { name := "Hidden Single (Row)"
    description := "Value " ++ toString v ++ " can only go in cell ("
      ++ toString (r + 1) ++ ", " ++ toString (c + 1) ++ ") in row " ++ toString (r + 1)
    cells_affected := [(r, c)]
    values_removed := ∅
    explanation := "In row " ++ toString (r + 1) ++ ", value " ++ toString v
      ++ " can only be placed in cell (" ++ toString (r + 1) ++ ", "
      ++ toString (c + 1) ++ ")" }

/-- The `Technique` constructed by the column scan of `_find_hidden_single`. -/
def mk_hidden_col_tech (v r c : ℕ) : Technique :=
  { name := "Hidden Single (Column)"
    description := "Value " ++ toString v ++ " can only go in cell ("
      ++ toString (r + 1) ++ ", " ++ toString (c + 1) ++ ") in column " ++ toString (c + 1)
    cells_affected := [(r, c)]
    values_removed := ∅
    explanation := "In column " ++ toString (c + 1) ++ ", value " ++ toString v
      ++ " can only be placed in cell (" ++ toString (r + 1) ++ ", "
      ++ toString (c + 1) ++ ")" }

/-- The `Technique` constructed by the box scan of `_find_hidden_single`. -/
def mk_hidden_box_tech (v r c : ℕ) : Technique :=
  { name := "Hidden Single (Box)"
    description := "Value " ++ toString v ++ " can only go in cell ("
      ++ toString (r + 1) ++ ", " ++ toString (c + 1) ++ ") in box"
    cells_affected := [(r, c)]
    values_removed := ∅
    explanation := "In the 3x3 box, value " ++ toString v
      ++ " can only be placed in cell (" ++ toString (r + 1) ++ ", "
      ++ toString (c + 1) ++ ")" }

/-- The `(row, value)` pairs of the row scan of `_find_hidden_single`, in
loop order (`for i in range(9): for value in range(1, 10)`). -/
def rowValuePairs : List (ℕ × ℕ) :=
  (List.range 9).flatMap (fun i => (List.range' 1 9).map (fun v => (i, v)))

/-- The empty cells of row `i` whose cache contains `v` (the `positions`
list of the row scan; the source stores `(i, j)` pairs, here the `j`s). -/
def row_positions (s : SolverState) (i v : ℕ) : List ℕ :=
  (List.range 9).filter (fun j => decide (s.grid i j = 0 ∧ v ∈ s.cands i j))

/-- The row scan of `_find_hidden_single`: first `(row, value)` pair in
loop order with `value` absent from the row and exactly one position. -/
def find_hidden_row (s : SolverState) : Option Technique :=
  rowValuePairs.findSome? fun iv =>
    if iv.2 ∈ rowList s.grid iv.1 then none
    else
      match row_positions s iv.1 iv.2 with
      | [c] => some (mk_hidden_row_tech iv.2 iv.1 c)
      | _ => none

/-- The `(col, value)` pairs of the column scan, in loop order. -/
def colValuePairs : List (ℕ × ℕ) :=
  (List.range 9).flatMap (fun j => (List.range' 1 9).map (fun v => (j, v)))

/-- The empty cells of column `j` whose cache contains `v`. -/
def col_positions (s : SolverState) (j v : ℕ) : List ℕ :=
  (List.range 9).filter (fun i => decide (s.grid i j = 0 ∧ v ∈ s.cands i j))

/-- The column scan of `_find_hidden_single`. -/
def find_hidden_col (s : SolverState) : Option Technique :=
  colValuePairs.findSome? fun jv =>
    if jv.2 ∈ colList s.grid jv.1 then none
    else
      match col_positions s jv.1 jv.2 with
      | [r] => some (mk_hidden_col_tech jv.2 r jv.1)
      | _ => none

/-- The `(box_row, box_col, value)` triples of the box scan, in loop order
(`for box_row in range(0, 9, 3): for box_col in range(0, 9, 3): for value`). -/
def boxValueTriples : List (ℕ × ℕ × ℕ) :=
  (List.range 3).flatMap fun bi =>
    (List.range 3).flatMap fun bj =>
      (List.range' 1 9).map fun v => (3 * bi, 3 * bj, v)

/-- The empty cells of the box at `(br, bc)` whose cache contains `v`, in
the row-major order of the nested box loops. -/
def box_positions (s : SolverState) (br bc v : ℕ) : List (ℕ × ℕ) :=
  (((List.range 3).flatMap fun di => (List.range 3).map fun dj => (br + di, bc + dj)).filter
    fun rc => decide (s.grid rc.1 rc.2 = 0 ∧ v ∈ s.cands rc.1 rc.2))

/-- The box scan of `_find_hidden_single`. -/
def find_hidden_box (s : SolverState) : Option Technique :=
  boxValueTriples.findSome? fun t =>
    if t.2.2 ∈ boxList s.grid t.1 t.2.1 then none
    else
      match box_positions s t.1 t.2.1 t.2.2 with
      | [rc] => some (mk_hidden_box_tech t.2.2 rc.1 rc.2)
      | _ => none

/-- `SudokuSolver._find_hidden_single`: rows first, then columns, then
boxes, returning at the first hit. -/
def find_hidden_single (s : SolverState) : Option Technique :=
  match find_hidden_row s with
  | some t => some t
  | none =>
    match find_hidden_col s with
    | some t => some t
    | none => find_hidden_box s

/-- `SudokuSolver._find_naked_pair`: stub, always reports not found. -/
def find_naked_pair (_ : SolverState) : Option Technique := none

/-- `SudokuSolver._find_hidden_pair`: stub, always reports not found. -/
def find_hidden_pair (_ : SolverState) : Option Technique := none

/-- `SudokuSolver._find_pointing_pair`: stub, always reports not found. -/
def find_pointing_pair (_ : SolverState) : Option Technique := none

/-- `SudokuSolver._find_box_line_reduction`: stub, always reports not found. -/
def find_box_line_reduction (_ : SolverState) : Option Technique := none

/-- The `techniques` list of `_find_next_technique`, in source order. -/
def techniqueDetectors : List (SolverState → Option Technique) :=
  [find_naked_single, find_hidden_single, find_naked_pair, find_hidden_pair,
   find_pointing_pair, find_box_line_reduction]

/-- The detector loop of `_find_next_technique`: first technique returned
by the detectors in priority order (after the candidate update, which is
modelled separately in `find_next_technique`). -/
def run_detectors (s : SolverState) : Option Technique :=
  techniqueDetectors.findSome? fun f => f s

/-- `SudokuSolver._find_next_technique`: update all candidate caches,
then run the detectors in priority order; returns the updated state (the
mutation of `self.cells`) together with the detection result. -/
def find_next_technique (s : SolverState) : SolverState × Option Technique :=
  let s2 := update_all_candidates s
  (s2, run_detectors s2)

/-- One iteration of the `for row, col in technique.cells_affected` loop
of `SudokuSolver._apply_technique`: if the cached candidate set of the
cell has exactly one element, write that element into the grid
(`list(candidates)[0]`) and clear the cache; otherwise leave the cell
alone. -/
def apply_step (s2 : SolverState) (rc : ℕ × ℕ) : SolverState :=
  if (s2.cands rc.1 rc.2).card = 1 then
    { s2 with
      grid := set_cell s2.grid rc.1 rc.2 (elt (s2.cands rc.1 rc.2))
      cands := fun i j => if i = rc.1 ∧ j = rc.2 then ∅ else s2.cands i j }
  else s2

/-- `SudokuSolver._apply_technique`: run `apply_step` over the affected
cells in order. -/
def apply_technique (s : SolverState) (t : Technique) : SolverState :=
  t.cells_affected.foldl apply_step s

/-- `SudokuSolver.get_hint`: update all candidate caches, then run
`_find_next_technique` (which updates them again); the grid is not
written. -/
def get_hint (s : SolverState) : SolverState × Option Technique :=
  find_next_technique (update_all_candidates s)

/-- Outcome of one run of `solve_with_techniques`: normal return with the
recorded technique list, the `ValueError("Puzzle is unsolvable")`, or
fuel exhaustion (the source loop has no fuel; `outOfFuel` for every fuel
value means the loop never terminates). -/
inductive SolveOutcome where
  | solved (techs : List Technique) (s : SolverState)
  | unsolvable (s : SolverState)
  | outOfFuel (s : SolverState)

/-- The `while not self.is_solved()` loop of
`SudokuSolver.solve_with_techniques`, with the iteration count made
explicit as fuel: if the grid is solved, return the accumulated technique
list; otherwise detect, and either apply-and-append and loop, or fall
back to backtracking (`_backtrack_solve`), committing its assignment on
success and failing with the unsolvable error otherwise. -/
def solve_loop : ℕ → SolverState → List Technique → SolveOutcome
  | 0, s, _ => .outOfFuel s
  | fuel + 1, s, acc =>
    if is_solved s.grid then .solved acc s
    else
      match find_next_technique s with
      | (s2, some t) => solve_loop fuel (apply_technique s2 t) (acc ++ [t])
      | (s2, none) =>
        match fill_remaining 82 s2.grid with
        | some g2 => .solved acc { s2 with grid := g2 }
        | none => .unsolvable s2

/-- `SudokuSolver.solve_with_techniques`, starting from an empty
technique list, with `fuel` loop iterations available. -/
def solve_with_techniques (fuel : ℕ) (s : SolverState) : SolveOutcome :=
  solve_loop fuel s []


/-- Concrete diagonal-box shuffle results used to evaluate the generator
on one run (each a permutation of 1..9, as `random.shuffle` produces). -/
def genP1 : List ℕ := [1,2,3,4,5,6,7,8,9]

/-- Second diagonal-box shuffle result. -/
def genP2 : List ℕ := [7,8,5,3,1,6,4,2,9]

/-- Third diagonal-box shuffle result. -/
def genP3 : List ℕ := [4,2,9,7,8,5,3,1,6]

/-- Strict row-major (lexicographic) order on cell coordinates: the order
in which the `for i: for j:` scans visit the cells. -/
def lexLt (a b : ℕ × ℕ) : Prop := a.1 < b.1 ∨ (a.1 = b.1 ∧ a.2 < b.2)

instance (a b : ℕ × ℕ) : Decidable (lexLt a b) := by
  unfold lexLt; infer_instance

/-- The classic example puzzle from the specification. -/
def classicPuzzle : List (List ℕ) :=
  [[5,3,0,0,7,0,0,0,0],
   [6,0,0,1,9,5,0,0,0],
   [0,9,8,0,0,0,0,6,0],
   [8,0,0,0,6,0,0,0,3],
   [4,0,0,8,0,3,0,0,1],
   [7,0,0,0,2,0,0,0,6],
   [0,6,0,0,0,0,2,8,0],
   [0,0,0,4,1,9,0,0,5],
   [0,0,0,0,8,0,0,7,9]]

/-- A malformed puzzle: the entry at `(0, 0)` is 10, outside `[0, 9]`. -/
def outOfRangePuzzle : List (List ℕ) :=
  [[10,0,0,0,0,0,0,0,0],
   [0,0,0,0,0,0,0,0,0],
   [0,0,0,0,0,0,0,0,0],
   [0,0,0,0,0,0,0,0,0],
   [0,0,0,0,0,0,0,0,0],
   [0,0,0,0,0,0,0,0,0],
   [0,0,0,0,0,0,0,0,0],
   [0,0,0,0,0,0,0,0,0],
   [0,0,0,0,0,0,0,0,0]]

/-- A valid, solvable-by-backtracking puzzle on which technique detection
returns a Hidden Single whose cell still has nine candidates: value 1 is
confined to cell `(0, 0)` in row 0 by the four placed 1s, but cell
`(0, 0)` itself is otherwise unconstrained.  Since `_apply_technique`
only writes cells whose candidate set is a singleton, applying this
technique changes nothing and the solve loop repeats it forever. -/
def hiddenDemo : List (List ℕ) :=
  [[0,0,0,0,0,0,0,0,0],
   [0,0,0,1,0,0,0,0,0],
   [0,0,0,0,0,0,0,1,0],
   [0,1,0,0,0,0,0,0,0],
   [0,0,0,0,0,0,0,0,0],
   [0,0,0,0,0,0,0,0,0],
   [0,0,1,0,0,0,0,0,0],
   [0,0,0,0,0,0,0,0,0],
   [0,0,0,0,0,0,0,0,0]]

attribute [ext] SolverState

/-! ### General helper lemmas -/

lemma mem_allCells {r c : ℕ} : (r, c) ∈ allCells ↔ r < 9 ∧ c < 9 := by
  simp [allCells, List.mem_flatMap, List.mem_range, List.mem_map, Prod.ext_iff]

lemma allCells_nodup : allCells.Nodup := by decide

lemma set_cell_restore (g : Grid) (r c : ℕ) :
    set_cell (set_cell g r c 0) r c (g r c) = g := by
  funext i j
  by_cases h : i = r ∧ j = c
  · obtain ⟨h1, h2⟩ := h
    subst h1; subst h2
    simp [set_cell]
  · simp [set_cell, h]

lemma set_cell_ne (g : Grid) (r c v i j : ℕ) (h : ¬(i = r ∧ j = c)) :
    set_cell g r c v i j = g i j := by
  simp [set_cell, h]

/-- `unit_ok` of a unit enumerated by a function over `range n` says
exactly that two distinct positions never hold the same non-zero value. -/
lemma unit_ok_iff (f : ℕ → ℕ) (n : ℕ) :
    unit_ok ((List.range n).map f) ↔
      ∀ i j, i < n → j < n → i ≠ j → f i ≠ 0 → f j ≠ 0 → f i ≠ f j := by
  unfold unit_ok
  show List.Pairwise (fun a b => a ≠ b)
      (List.filter (fun v => decide (v ≠ 0)) ((List.range n).map f)) ↔ _
  rw [List.pairwise_filter, List.pairwise_map, List.pairwise_iff_getElem]
  constructor
  · intro h i j hi hj hij fi fj
    rcases Nat.lt_or_ge i j with hlt | hge
    · have := h i j (by simpa using hi) (by simpa using hj) hlt
      simp only [List.getElem_range] at this
      exact this (by simpa using fi) (by simpa using fj)
    · have hgt : j < i := Nat.lt_of_le_of_ne hge (fun e => hij e.symm)
      have := h j i (by simpa using hj) (by simpa using hi) hgt
      simp only [List.getElem_range] at this
      exact fun e => this (by simpa using fj) (by simpa using fi) e.symm
  · intro h i j hi hj hij
    simp only [List.getElem_range]
    intro fi fj
    exact h i j (by simpa using hi) (by simpa using hj) (Nat.ne_of_lt hij)
      (by simpa using fi) (by simpa using fj)

/-- `is_valid` unfolded to the pairwise characterization of all 27 units. -/
lemma is_valid_iff (g : Grid) :
    is_valid g ↔
      (∀ r, r < 9 → ∀ j1 j2, j1 < 9 → j2 < 9 → j1 ≠ j2 →
        g r j1 ≠ 0 → g r j2 ≠ 0 → g r j1 ≠ g r j2) ∧
      (∀ c, c < 9 → ∀ i1 i2, i1 < 9 → i2 < 9 → i1 ≠ i2 →
        g i1 c ≠ 0 → g i2 c ≠ 0 → g i1 c ≠ g i2 c) ∧
      (∀ bi bj, bi < 3 → bj < 3 → ∀ k1 k2, k1 < 9 → k2 < 9 → k1 ≠ k2 →
        g (3 * bi + k1 / 3) (3 * bj + k1 % 3) ≠ 0 →
        g (3 * bi + k2 / 3) (3 * bj + k2 % 3) ≠ 0 →
        g (3 * bi + k1 / 3) (3 * bj + k1 % 3) ≠ g (3 * bi + k2 / 3) (3 * bj + k2 % 3)) := by
  unfold is_valid rowList colList boxList
  constructor
  · rintro ⟨hr, hc, hb⟩
    refine ⟨fun r hrr => (unit_ok_iff _ 9).1 (hr r hrr),
      fun c hcc => (unit_ok_iff _ 9).1 (hc c hcc), fun bi bj hbi hbj => ?_⟩
    exact (unit_ok_iff _ 9).1 (hb bi hbi bj hbj)
  · rintro ⟨hr, hc, hb⟩
    exact ⟨fun r hrr => (unit_ok_iff _ 9).2 (hr r hrr),
      fun c hcc => (unit_ok_iff _ 9).2 (hc c hcc),
      fun bi hbi bj hbj => (unit_ok_iff _ 9).2 (hb bi bj hbi hbj)⟩

lemma sdiff_sdiff_sdiff_eq (A B C D : Finset ℕ) :
    ((A \ B) \ C) \ D = A \ (B ∪ C ∪ D) := by
  ext x
  simp only [Finset.mem_sdiff, Finset.mem_union]
  tauto

lemma mem_row_vals (g : Grid) (r j : ℕ) (hj : j < 9) : g r j ∈ row_vals g r := by
  exact Finset.mem_image.2 ⟨j, Finset.mem_range.2 hj, rfl⟩

lemma mem_col_vals (g : Grid) (c i : ℕ) (hi : i < 9) : g i c ∈ col_vals g c := by
  exact Finset.mem_image.2 ⟨i, Finset.mem_range.2 hi, rfl⟩

lemma mem_box_vals (g : Grid) (r c k : ℕ) (hk : k < 9) :
    g (r / 3 * 3 + k / 3) (c / 3 * 3 + k % 3) ∈ box_vals g r c := by
  exact Finset.mem_image.2 ⟨k, Finset.mem_range.2 hk, rfl⟩

/-- Membership facts about a candidate value. -/
lemma mem_get_candidates (g : Grid) (r c v : ℕ) (hv : v ∈ get_candidates g r c) :
    g r c = 0 ∧ 1 ≤ v ∧ v ≤ 9 ∧ v ∉ row_vals g r ∧ v ∉ col_vals g c ∧
      v ∉ box_vals g r c := by
  unfold get_candidates at hv
  by_cases h : g r c = 0
  · rw [if_neg (by simpa using h)] at hv
    simp only [Finset.mem_sdiff, Finset.mem_Icc] at hv
    exact ⟨h, hv.1.1.1.1, hv.1.1.1.2, hv.1.1.2, hv.1.2, hv.2⟩
  · rw [if_pos (by simpa using h)] at hv
    simp at hv

/-! ### C7: specification of `candidates` -/

/-- C7.  For every grid and cell: a filled cell has no candidates; an
empty cell has `{1..9}` minus the union of the values present in its row,
column and box; and no candidate is a value already present in one of
those three units. -/
theorem candidates_spec (g : Grid) (r c : ℕ) :
    (g r c ≠ 0 → get_candidates g r c = ∅) ∧
    (g r c = 0 → get_candidates g r c =
      Finset.Icc 1 9 \ (row_vals g r ∪ col_vals g c ∪ box_vals g r c)) ∧
    (∀ v ∈ get_candidates g r c,
      v ∉ row_vals g r ∧ v ∉ col_vals g c ∧ v ∉ box_vals g r c) := by
  refine ⟨fun h => by simp [get_candidates, h], fun h => ?_, fun v hv => ?_⟩
  · rw [get_candidates, if_neg (by simpa using h), sdiff_sdiff_sdiff_eq]
  · have := mem_get_candidates g r c v hv
    exact ⟨this.2.2.2.1, this.2.2.2.2.1, this.2.2.2.2.2⟩

/-- Witness for C7 at a concrete cell of the classic puzzle. -/
theorem candidates_spec_witness :
    gridOfList classicPuzzle 0 0 ≠ 0 ∧
      get_candidates (gridOfList classicPuzzle) 0 0 = ∅ :=
  ⟨by decide, (candidates_spec (gridOfList classicPuzzle) 0 0).1 (by decide)⟩

/-! ### C3: `load_puzzle` performs no validation -/

/-- Counterexample to C3: `load_puzzle` has no validation code path at
all; on a well-formed 9x9 input the out-of-range value 10 is accepted
into the internal state and marked as a given instead of being rejected
with an error before any solving attempt. -/
theorem load_puzzle_accepts_out_of_range :
    wellFormed outOfRangePuzzle ∧
      (load_puzzle outOfRangePuzzle).grid 0 0 = 10 ∧
      (load_puzzle outOfRangePuzzle).given 0 0 = true :=
  ⟨by decide, rfl, by decide⟩

/-- C3 as amended: `load_puzzle` performs no value validation; for every
well-formed 9x9 input, including ones with out-of-range entries, and
every cell of the board it replaces the internal state with the supplied
entries, recomputes the candidate caches, and marks exactly the non-zero
cells as given.  (Dimension-malformed inputs are outside this statement:
the source crashes on them with an unhandled library error, not with the
designed rejection.) -/
theorem load_puzzle_replaces_state (p : List (List ℕ)) (i j : ℕ)
    (_hwf : wellFormed p) (_hi : i < 9) (_hj : j < 9) :
    (load_puzzle p).grid i j = (p.getD i []).getD j 0 ∧
    ((load_puzzle p).given i j = true ↔ (p.getD i []).getD j 0 ≠ 0) ∧
    (load_puzzle p).cands i j = get_candidates (gridOfList p) i j := by
  refine ⟨rfl, by simp [load_puzzle, gridOfList], ?_⟩
  show (if gridOfList p i j = 0 then get_candidates (gridOfList p) i j else ∅) = _
  by_cases h : gridOfList p i j = 0
  · rw [if_pos h]
  · rw [if_neg h, get_candidates, if_pos (by simpa using h)]

/-- Witness for the amended C3 at cell `(0, 1)` of the classic puzzle. -/
theorem load_puzzle_replaces_state_witness :
    (wellFormed classicPuzzle ∧ 0 < 9 ∧ 1 < 9) ∧
      ((load_puzzle classicPuzzle).grid 0 1 = (classicPuzzle.getD 0 []).getD 1 0 ∧
       ((load_puzzle classicPuzzle).given 0 1 = true ↔
         (classicPuzzle.getD 0 []).getD 1 0 ≠ 0) ∧
       (load_puzzle classicPuzzle).cands 0 1 =
         get_candidates (gridOfList classicPuzzle) 0 1) :=
  ⟨⟨by decide, by decide, by decide⟩,
    load_puzzle_replaces_state classicPuzzle 0 1 (by decide) (by decide) (by decide)⟩

/-! ### C6: `get_hint` is read-only and idempotent -/

lemma update_all_grid (s : SolverState) :
    (update_all_candidates s).grid = s.grid := rfl

lemma update_all_idem (s : SolverState) :
    update_all_candidates (update_all_candidates s) = update_all_candidates s := by
  cases s with
  | mk g cand gv =>
    unfold update_all_candidates
    simp only []
    ext i j v
    · rfl
    · by_cases h : g i j = 0 <;> simp [h]
    · rfl

/-- C6.  `get_hint` never changes any grid cell value, and calling it
twice in a row without mutating the grid in between returns the identical
technique option. -/
theorem get_hint_readonly_idempotent (s : SolverState) :
    (get_hint s).1.grid = s.grid ∧
      (get_hint (get_hint s).1).2 = (get_hint s).2 := by
  constructor
  · rfl
  · show run_detectors
        (update_all_candidates (update_all_candidates
          (update_all_candidates (update_all_candidates s)))) =
      run_detectors (update_all_candidates (update_all_candidates s))
    rw [update_all_idem, update_all_idem]

/-- Witness for C6 on the loaded classic puzzle. -/
theorem get_hint_readonly_idempotent_witness :
    (get_hint (load_puzzle classicPuzzle)).1.grid = (load_puzzle classicPuzzle).grid ∧
      (get_hint (get_hint (load_puzzle classicPuzzle)).1).2 =
        (get_hint (load_puzzle classicPuzzle)).2 :=
  get_hint_readonly_idempotent (load_puzzle classicPuzzle)

/-! ### C10: frame property of `apply_technique` -/

lemma apply_step_eq_of_card_ne (s : SolverState) (rc : ℕ × ℕ)
    (h : (s.cands rc.1 rc.2).card ≠ 1) : apply_step s rc = s := by
  unfold apply_step
  rw [if_neg h]

lemma apply_step_grid_ne (s : SolverState) (rc : ℕ × ℕ) (r c : ℕ)
    (h : (r, c) ≠ rc) : (apply_step s rc).grid r c = s.grid r c := by
  unfold apply_step
  split
  · exact set_cell_ne _ _ _ _ _ _ (fun e => h (Prod.ext e.1 e.2))
  · rfl

lemma apply_step_cands_ne (s : SolverState) (rc : ℕ × ℕ) (r c : ℕ)
    (h : (r, c) ≠ rc) : (apply_step s rc).cands r c = s.cands r c := by
  unfold apply_step
  split
  · show (if r = rc.1 ∧ c = rc.2 then ∅ else s.cands r c) = s.cands r c
    rw [if_neg (fun e => h (Prod.ext e.1 e.2))]
  · rfl

/-- The `apply_step` fold never touches a cell that is outside the
affected list or whose candidate cache is not a singleton. -/
lemma apply_fold_frame (l : List (ℕ × ℕ)) :
    ∀ (s : SolverState) (r c : ℕ),
      ((r, c) ∉ l ∨ (s.cands r c).card ≠ 1) →
      (l.foldl apply_step s).grid r c = s.grid r c ∧
        (l.foldl apply_step s).cands r c = s.cands r c := by
  induction l with
  | nil => exact fun s r c _ => ⟨rfl, rfl⟩
  | cons a tl ih =>
    intro s r c h
    rw [List.foldl_cons]
    rcases h with hnot | hcard
    · have ha : (r, c) ≠ a := fun e => hnot (e ▸ List.mem_cons_self a tl)
      have htl : (r, c) ∉ tl := fun e => hnot (List.mem_cons_of_mem _ e)
      have := ih (apply_step s a) r c (Or.inl htl)
      exact ⟨this.1.trans (apply_step_grid_ne s a r c ha),
        this.2.trans (apply_step_cands_ne s a r c ha)⟩
    · by_cases he : (r, c) = a
      · have hs : apply_step s a = s := by
          refine apply_step_eq_of_card_ne s a ?_
          rw [← he]
          exact hcard
        rw [hs]
        exact ih s r c (Or.inr hcard)
      · have := ih (apply_step s a) r c
          (Or.inr (by rw [apply_step_cands_ne s a r c he]; exact hcard))
        exact ⟨this.1.trans (apply_step_grid_ne s a r c he),
          this.2.trans (apply_step_cands_ne s a r c he)⟩

/-- C10.  Applying a technique writes only to affected cells whose
current candidate cache is a singleton; and on the loaded `hiddenDemo`
puzzle the detector returns a Hidden Single technique whose affected
cell `(0, 0)` still has nine candidates, so applying it leaves the whole
solver state (in particular every grid cell) unchanged. -/
theorem apply_technique_frame :
    (∀ (s : SolverState) (t : Technique) (r c : ℕ),
      ((r, c) ∉ t.cells_affected ∨ (s.cands r c).card ≠ 1) →
      (apply_technique s t).grid r c = s.grid r c) ∧
    (run_detectors (load_puzzle hiddenDemo) = some (mk_hidden_row_tech 1 0 0) ∧
     (mk_hidden_row_tech 1 0 0).cells_affected = [(0, 0)] ∧
     2 ≤ ((load_puzzle hiddenDemo).cands 0 0).card ∧
     apply_technique (load_puzzle hiddenDemo) (mk_hidden_row_tech 1 0 0) =
       load_puzzle hiddenDemo) := by
  refine ⟨fun s t r c h => (apply_fold_frame t.cells_affected s r c h).1,
    by decide, rfl, by decide, rfl⟩

/-- Witness for the universal part of C10: cell `(5, 5)` is not affected
by the detected technique, so applying it leaves that cell unchanged. -/
theorem apply_technique_frame_witness :
    ((5, 5) ∉ (mk_hidden_row_tech 1 0 0).cells_affected ∨
      ((load_puzzle hiddenDemo).cands 5 5).card ≠ 1) ∧
    (apply_technique (load_puzzle hiddenDemo) (mk_hidden_row_tech 1 0 0)).grid 5 5 =
      (load_puzzle hiddenDemo).grid 5 5 :=
  ⟨by decide, apply_technique_frame.1 (load_puzzle hiddenDemo)
    (mk_hidden_row_tech 1 0 0) 5 5 (by decide)⟩

/-! ### C1: the solve loop does not terminate on `hiddenDemo` -/

lemma update_all_load_puzzle (p : List (List ℕ)) :
    update_all_candidates (load_puzzle p) = load_puzzle p := by
  unfold update_all_candidates load_puzzle
  ext i j v
  · rfl
  · by_cases h : gridOfList p i j = 0 <;> simp [h]
  · rfl

/-- C1 fails on the code: on the loaded `hiddenDemo` puzzle the solve
loop never reaches a terminal state.  Every iteration finds the same
Hidden Single technique for cell `(0, 0)` (which has nine candidates),
`_apply_technique` writes nothing, and the grid is unchanged, so for
every iteration budget the loop neither returns the technique list nor
raises the unsolvable error: `solve_with_techniques` runs forever. -/
theorem solve_loop_diverges_on_hiddenDemo :
    ∀ (fuel : ℕ) (acc : List Technique),
      solve_loop fuel (load_puzzle hiddenDemo) acc =
        SolveOutcome.outOfFuel (load_puzzle hiddenDemo) := by
  intro fuel
  induction fuel with
  | zero => exact fun _ => rfl
  | succ n ih =>
    intro acc
    have hfind : find_next_technique (load_puzzle hiddenDemo) =
        (load_puzzle hiddenDemo, some (mk_hidden_row_tech 1 0 0)) := by
      unfold find_next_technique
      rw [update_all_load_puzzle]
      exact Prod.ext rfl (by decide)
    show solve_loop (n + 1) (load_puzzle hiddenDemo) acc = _
    rw [solve_loop, if_neg (by decide : ¬ is_solved (load_puzzle hiddenDemo).grid),
      hfind]
    exact ih (acc ++ [mk_hidden_row_tech 1 0 0])

/-! ### C5: helper lemmas about the scan combinators -/

lemma lexLt_irrefl (a : ℕ × ℕ) : ¬ lexLt a a := by
  unfold lexLt; omega

lemma lexLt_asymm (a b : ℕ × ℕ) : lexLt a b → ¬ lexLt b a := by
  unfold lexLt; omega

lemma allCells_pairwise : allCells.Pairwise lexLt := by decide

/-- In a list sorted by an asymmetric irreflexive relation, every element
strictly before a successful `find?` hit fails the predicate. -/
lemma find?_not_before {α : Type} {R : α → α → Prop} {p : α → Bool} :
    ∀ {l : List α} {a : α}, l.Pairwise R → l.find? p = some a →
      (∀ x y, R x y → ¬ R y x) → (∀ x, ¬ R x x) →
      ∀ x ∈ l, R x a → p x = false := by
  intro l
  induction l with
  | nil => intro a _ h; simp at h
  | cons hd tl ih =>
    intro a hpw hfind hasymm hirr x hx hR
    rw [List.find?_cons] at hfind
    cases hphd : p hd with
    | true =>
      rw [hphd] at hfind
      have hda : hd = a := by
        have h2 : some hd = some a := hfind
        exact Option.some.inj h2
      subst hda
      rcases List.mem_cons.1 hx with rfl | hxtl
      · exact absurd hR (hirr x)
      · exact absurd hR (hasymm hd x ((List.pairwise_cons.1 hpw).1 x hxtl))
    | false =>
      rw [hphd] at hfind
      have h2 : List.find? p tl = some a := hfind
      rcases List.mem_cons.1 hx with rfl | hxtl
      · exact hphd
      · exact ih (List.pairwise_cons.1 hpw).2 h2 hasymm hirr x hxtl hR

/-- Conversely, an element that satisfies the predicate while everything
ordered before it fails is the `find?` hit. -/
lemma find?_eq_some_of_sorted {α : Type} {R : α → α → Prop} {p : α → Bool} :
    ∀ {l : List α} {a : α}, l.Pairwise R → a ∈ l → p a = true →
      (∀ x ∈ l, R x a → p x = false) → l.find? p = some a := by
  intro l
  induction l with
  | nil => intro a _ ha _ _; cases ha
  | cons hd tl ih =>
    intro a hpw hmem hp hbef
    rw [List.find?_cons]
    rcases List.mem_cons.1 hmem with rfl | htl
    · rw [hp]
    · cases hphd : p hd with
      | true =>
        have := hbef hd (List.mem_cons_self hd tl) ((List.pairwise_cons.1 hpw).1 a htl)
        rw [hphd] at this
        cases this
      | false =>
        exact ih (List.pairwise_cons.1 hpw).2 htl hp
          (fun x hx hR => hbef x (List.mem_cons_of_mem _ hx) hR)

lemma exists_of_findSome? {α β : Type} {f : α → Option β} :
    ∀ {l : List α} {b : β}, l.findSome? f = some b → ∃ a ∈ l, f a = some b := by
  intro l
  induction l with
  | nil => intro b h; cases h
  | cons hd tl ih =>
    intro b h
    rw [List.findSome?_cons] at h
    cases hfd : f hd with
    | some x =>
      rw [hfd] at h
      have hxb : some x = some b := h
      exact ⟨hd, List.mem_cons_self hd tl, by rw [hfd, Option.some.inj hxb]⟩
    | none =>
      rw [hfd] at h
      have h2 : List.findSome? f tl = some b := h
      obtain ⟨a, ha, hfa⟩ := ih h2
      exact ⟨a, List.mem_cons_of_mem _ ha, hfa⟩

lemma filter_eq_singleton_facts {α : Type} {l : List α} {p : α → Bool} {c : α}
    (h : l.filter p = [c]) :
    c ∈ l ∧ p c = true ∧ ∀ x ∈ l, p x = true → x = c := by
  have hc : c ∈ l.filter p := by
    rw [h]
    exact List.mem_cons_self c []
  refine ⟨(List.mem_filter.1 hc).1, (List.mem_filter.1 hc).2, fun x hx hpx => ?_⟩
  have hxin : x ∈ l.filter p := List.mem_filter.2 ⟨hx, hpx⟩
  rw [h] at hxin
  simpa using hxin

lemma elt_singleton (v : ℕ) : elt {v} = v := by
  unfold elt
  rw [Finset.sort_singleton]
  rfl

/-- Characterization of `_find_naked_single` on fresh candidates: it
fires exactly on the row-major-first empty cell with a singleton
candidate set. -/
lemma naked_single_iff (g : Grid) (t : Technique) :
    find_naked_single (freshState g) = some t ↔
      ∃ r c v, r < 9 ∧ c < 9 ∧ g r c = 0 ∧ get_candidates g r c = {v} ∧
        (∀ r2 c2, r2 < 9 → c2 < 9 → lexLt (r2, c2) (r, c) →
          ¬(g r2 c2 = 0 ∧ (get_candidates g r2 c2).card = 1)) ∧
        t = mk_naked_tech r c v := by
  constructor
  · intro h
    unfold find_naked_single at h
    rw [Option.map_eq_some'] at h
    obtain ⟨rc, hfind, hF⟩ := h
    obtain ⟨r, c⟩ := rc
    have hbounds := mem_allCells.1 (List.mem_of_find?_eq_some hfind)
    have hp := List.find?_some hfind
    rw [decide_eq_true_iff] at hp
    have hp2 : g r c = 0 ∧ (get_candidates g r c).card = 1 := hp
    obtain ⟨v, hv⟩ := Finset.card_eq_one.1 hp2.2
    refine ⟨r, c, v, hbounds.1, hbounds.2, hp2.1, hv, ?_, ?_⟩
    · intro r2 c2 h2r h2c hlex hcontra
      have hmem2 : ((r2, c2) : ℕ × ℕ) ∈ allCells := mem_allCells.2 ⟨h2r, h2c⟩
      have hfalse := find?_not_before allCells_pairwise hfind lexLt_asymm
        lexLt_irrefl (r2, c2) hmem2 hlex
      rw [decide_eq_false_iff_not] at hfalse
      exact hfalse hcontra
    · rw [← hF]
      show mk_naked_tech r c (elt (get_candidates g r c)) = _
      rw [hv, elt_singleton]
  · rintro ⟨r, c, v, hr, hc, h0, hcand, hbef, rfl⟩
    unfold find_naked_single
    have hfind : allCells.find?
        (fun rc => decide ((freshState g).grid rc.1 rc.2 = 0 ∧
          ((freshState g).cands rc.1 rc.2).card = 1)) = some (r, c) := by
      refine find?_eq_some_of_sorted allCells_pairwise
        (mem_allCells.2 ⟨hr, hc⟩) ?_ ?_
      · rw [decide_eq_true_iff]
        refine ⟨h0, ?_⟩
        show (get_candidates g r c).card = 1
        rw [hcand]
        exact Finset.card_singleton v
      · rintro ⟨r2, c2⟩ hx hlex
        rw [decide_eq_false_iff_not]
        intro hcontra
        have hb := mem_allCells.1 hx
        exact hbef r2 c2 hb.1 hb.2 hlex hcontra
    rw [hfind, Option.map_some']
    show some (mk_naked_tech r c (elt (get_candidates g r c))) = _
    rw [hcand, elt_singleton]

/-- Soundness of the row scan of `_find_hidden_single` on fresh
candidates: the reported value is missing from the reported row and has
exactly one possible cell there. -/
lemma hidden_row_sound (g : Grid) (t : Technique)
    (h : find_hidden_row (freshState g) = some t) :
    ∃ v r c, t = mk_hidden_row_tech v r c ∧ r < 9 ∧ c < 9 ∧ 1 ≤ v ∧ v ≤ 9 ∧
      v ∉ rowList g r ∧
      ∀ j, j < 9 → ((g r j = 0 ∧ v ∈ get_candidates g r j) ↔ j = c) := by
  unfold find_hidden_row at h
  obtain ⟨iv, hmem, hbody⟩ := exists_of_findSome? h
  obtain ⟨i, v⟩ := iv
  have hiv : i < 9 ∧ 1 ≤ v ∧ v ≤ 9 := by
    simp only [rowValuePairs, List.mem_flatMap, List.mem_map, List.mem_range,
      List.mem_range'_1, Prod.mk.injEq] at hmem
    obtain ⟨a, ha, b, hb, h1, h2⟩ := hmem
    subst h1
    subst h2
    exact ⟨ha, hb.1, by omega⟩
  by_cases hrow : v ∈ rowList (freshState g).grid i
  · rw [if_pos hrow] at hbody
    cases hbody
  · rw [if_neg hrow] at hbody
    cases hps : row_positions (freshState g) i v with
    | nil =>
      rw [hps] at hbody
      cases hbody
    | cons c rest =>
      cases rest with
      | nil =>
        rw [hps] at hbody
        have ht : t = mk_hidden_row_tech v i c := by
          have h2 : some (mk_hidden_row_tech v i c) = some t := hbody
          exact (Option.some.inj h2).symm
        unfold row_positions at hps
        obtain ⟨hcmem, hpc, huniq⟩ := filter_eq_singleton_facts hps
        rw [List.mem_range] at hcmem
        rw [decide_eq_true_iff] at hpc
        refine ⟨v, i, c, ht, hiv.1, hcmem, hiv.2.1, hiv.2.2, hrow, fun j hj => ?_⟩
        constructor
        · intro hcond
          have := huniq j (List.mem_range.2 hj)
            (decide_eq_true_iff.2 (show (freshState g).grid i j = 0 ∧
              v ∈ (freshState g).cands i j from hcond))
          exact this
        · rintro rfl
          exact hpc
      | cons c2 rest2 =>
        rw [hps] at hbody
        cases hbody

/-- Soundness of the column scan of `_find_hidden_single` on fresh
candidates. -/
lemma hidden_col_sound (g : Grid) (t : Technique)
    (h : find_hidden_col (freshState g) = some t) :
    ∃ v r c, t = mk_hidden_col_tech v r c ∧ r < 9 ∧ c < 9 ∧ 1 ≤ v ∧ v ≤ 9 ∧
      v ∉ colList g c ∧
      ∀ i, i < 9 → ((g i c = 0 ∧ v ∈ get_candidates g i c) ↔ i = r) := by
  unfold find_hidden_col at h
  obtain ⟨jv, hmem, hbody⟩ := exists_of_findSome? h
  obtain ⟨j, v⟩ := jv
  have hjv : j < 9 ∧ 1 ≤ v ∧ v ≤ 9 := by
    simp only [colValuePairs, List.mem_flatMap, List.mem_map, List.mem_range,
      List.mem_range'_1, Prod.mk.injEq] at hmem
    obtain ⟨a, ha, b, hb, h1, h2⟩ := hmem
    subst h1
    subst h2
    exact ⟨ha, hb.1, by omega⟩
  by_cases hcol : v ∈ colList (freshState g).grid j
  · rw [if_pos hcol] at hbody
    cases hbody
  · rw [if_neg hcol] at hbody
    cases hps : col_positions (freshState g) j v with
    | nil =>
      rw [hps] at hbody
      cases hbody
    | cons r rest =>
      cases rest with
      | nil =>
        rw [hps] at hbody
        have ht : t = mk_hidden_col_tech v r j := by
          have h2 : some (mk_hidden_col_tech v r j) = some t := hbody
          exact (Option.some.inj h2).symm
        unfold col_positions at hps
        obtain ⟨hrmem, hpr, huniq⟩ := filter_eq_singleton_facts hps
        rw [List.mem_range] at hrmem
        rw [decide_eq_true_iff] at hpr
        refine ⟨v, r, j, ht, hrmem, hjv.1, hjv.2.1, hjv.2.2, hcol, fun i hi => ?_⟩
        constructor
        · intro hcond
          exact huniq i (List.mem_range.2 hi)
            (decide_eq_true_iff.2 (show (freshState g).grid i j = 0 ∧
              v ∈ (freshState g).cands i j from hcond))
        · rintro rfl
          exact hpr
      | cons r2 rest2 =>
        rw [hps] at hbody
        cases hbody

/-- Soundness of the box scan of `_find_hidden_single` on fresh
candidates. -/
lemma hidden_box_sound (g : Grid) (t : Technique)
    (h : find_hidden_box (freshState g) = some t) :
    ∃ v bi bj r c, t = mk_hidden_box_tech v r c ∧ bi < 3 ∧ bj < 3 ∧
      1 ≤ v ∧ v ≤ 9 ∧ v ∉ boxList g (3 * bi) (3 * bj) ∧
      (∃ di dj, di < 3 ∧ dj < 3 ∧ r = 3 * bi + di ∧ c = 3 * bj + dj) ∧
      ∀ di dj, di < 3 → dj < 3 →
        ((g (3 * bi + di) (3 * bj + dj) = 0 ∧
          v ∈ get_candidates g (3 * bi + di) (3 * bj + dj)) ↔
          (3 * bi + di, 3 * bj + dj) = (r, c)) := by
  unfold find_hidden_box at h
  obtain ⟨tr, hmem, hbody⟩ := exists_of_findSome? h
  obtain ⟨br, bc, v⟩ := tr
  have htr : ∃ bi bj, bi < 3 ∧ bj < 3 ∧ br = 3 * bi ∧ bc = 3 * bj ∧
      1 ≤ v ∧ v ≤ 9 := by
    simp only [boxValueTriples, List.mem_flatMap, List.mem_map, List.mem_range,
      List.mem_range'_1, Prod.mk.injEq] at hmem
    obtain ⟨a, ha, b, hb, x, hx, h1, h2, h3⟩ := hmem
    subst h1
    subst h2
    subst h3
    exact ⟨a, b, ha, hb, rfl, rfl, hx.1, by omega⟩
  obtain ⟨bi, bj, hbi, hbj, hbr, hbc, hv1, hv9⟩ := htr
  subst hbr
  subst hbc
  by_cases hbox : v ∈ boxList (freshState g).grid (3 * bi) (3 * bj)
  · rw [if_pos hbox] at hbody
    cases hbody
  · rw [if_neg hbox] at hbody
    cases hps : box_positions (freshState g) (3 * bi) (3 * bj) v with
    | nil =>
      rw [hps] at hbody
      cases hbody
    | cons rc rest =>
      cases rest with
      | nil =>
        rw [hps] at hbody
        have ht : t = mk_hidden_box_tech v rc.1 rc.2 := by
          have h2 : some (mk_hidden_box_tech v rc.1 rc.2) = some t := hbody
          exact (Option.some.inj h2).symm
        unfold box_positions at hps
        obtain ⟨hrcmem, hprc, huniq⟩ := filter_eq_singleton_facts hps
        have hrc : ∃ di dj, di < 3 ∧ dj < 3 ∧ rc.1 = 3 * bi + di ∧
            rc.2 = 3 * bj + dj := by
          simp only [List.mem_flatMap, List.mem_map, List.mem_range,
            Prod.ext_iff] at hrcmem
          obtain ⟨di, hdi, dj, hdj, h1, h2⟩ := hrcmem
          exact ⟨di, dj, hdi, hdj, h1.symm, h2.symm⟩
        rw [decide_eq_true_iff] at hprc
        refine ⟨v, bi, bj, rc.1, rc.2, ht, hbi, hbj, hv1, hv9, hbox, hrc,
          fun di dj hdi hdj => ?_⟩
        constructor
        · intro hcond
          refine huniq (3 * bi + di, 3 * bj + dj) ?_
            (decide_eq_true_iff.2 (show (freshState g).grid _ _ = 0 ∧
              v ∈ (freshState g).cands _ _ from hcond))
          simp only [List.mem_flatMap, List.mem_map, List.mem_range]
          exact ⟨di, hdi, dj, hdj, rfl⟩
        · intro he
          have h1 : 3 * bi + di = rc.1 := congrArg Prod.fst he
          have h2 : 3 * bj + dj = rc.2 := congrArg Prod.snd he
          rw [h1, h2]
          exact hprc
      | cons rc2 rest2 =>
        rw [hps] at hbody
        cases hbody

/-- C5.  Technique detection tries the detectors in the fixed priority
order (Naked Single, Hidden Single, then the four stubs, which always
report not-found), returning the first hit or none; Naked Single fires
exactly on the row-major-first empty cell with a singleton candidate
set; Hidden Single checks rows first, then columns, then boxes, and
returns a technique for a value with exactly one candidate cell in the
unit. -/
theorem technique_detection_spec :
    (∀ s : SolverState,
      run_detectors s = (find_naked_single s).or (find_hidden_single s) ∧
      find_naked_pair s = none ∧ find_hidden_pair s = none ∧
      find_pointing_pair s = none ∧ find_box_line_reduction s = none ∧
      find_hidden_single s =
        (find_hidden_row s).or ((find_hidden_col s).or (find_hidden_box s))) ∧
    (∀ (g : Grid) (t : Technique),
      find_naked_single (freshState g) = some t ↔
        ∃ r c v, r < 9 ∧ c < 9 ∧ g r c = 0 ∧ get_candidates g r c = {v} ∧
          (∀ r2 c2, r2 < 9 → c2 < 9 → lexLt (r2, c2) (r, c) →
            ¬(g r2 c2 = 0 ∧ (get_candidates g r2 c2).card = 1)) ∧
          t = mk_naked_tech r c v) ∧
    (∀ (g : Grid) (t : Technique),
      find_hidden_row (freshState g) = some t →
        ∃ v r c, t = mk_hidden_row_tech v r c ∧ r < 9 ∧ c < 9 ∧ 1 ≤ v ∧ v ≤ 9 ∧
          v ∉ rowList g r ∧
          ∀ j, j < 9 → ((g r j = 0 ∧ v ∈ get_candidates g r j) ↔ j = c)) ∧
    (∀ (g : Grid) (t : Technique),
      find_hidden_col (freshState g) = some t →
        ∃ v r c, t = mk_hidden_col_tech v r c ∧ r < 9 ∧ c < 9 ∧ 1 ≤ v ∧ v ≤ 9 ∧
          v ∉ colList g c ∧
          ∀ i, i < 9 → ((g i c = 0 ∧ v ∈ get_candidates g i c) ↔ i = r)) ∧
    (∀ (g : Grid) (t : Technique),
      find_hidden_box (freshState g) = some t →
        ∃ v bi bj r c, t = mk_hidden_box_tech v r c ∧ bi < 3 ∧ bj < 3 ∧
          1 ≤ v ∧ v ≤ 9 ∧ v ∉ boxList g (3 * bi) (3 * bj) ∧
          (∃ di dj, di < 3 ∧ dj < 3 ∧ r = 3 * bi + di ∧ c = 3 * bj + dj) ∧
          ∀ di dj, di < 3 → dj < 3 →
            ((g (3 * bi + di) (3 * bj + dj) = 0 ∧
              v ∈ get_candidates g (3 * bi + di) (3 * bj + dj)) ↔
              (3 * bi + di, 3 * bj + dj) = (r, c))) := by
  refine ⟨fun s => ⟨?_, rfl, rfl, rfl, rfl, ?_⟩,
    naked_single_iff, hidden_row_sound, hidden_col_sound, hidden_box_sound⟩
  · cases h1 : find_naked_single s <;> cases h2 : find_hidden_single s <;>
      simp [run_detectors, techniqueDetectors, List.findSome?_cons, h1, h2,
        find_naked_pair, find_hidden_pair, find_pointing_pair,
        find_box_line_reduction, Option.or]
  · show (match find_hidden_row s with
      | some t => some t
      | none => match find_hidden_col s with
        | some t => some t
        | none => find_hidden_box s) = _
    cases h1 : find_hidden_row s <;> cases h2 : find_hidden_col s <;>
      simp [Option.or]

/-- Witness for C5: on `hiddenDemo` the row scan fires for value 1 in
row 0, and the theorem yields its soundness facts. -/
theorem technique_detection_spec_witness :
    find_hidden_row (freshState (gridOfList hiddenDemo)) =
        some (mk_hidden_row_tech 1 0 0) ∧
      (∃ v r c, mk_hidden_row_tech 1 0 0 = mk_hidden_row_tech v r c ∧
        r < 9 ∧ c < 9 ∧ 1 ≤ v ∧ v ≤ 9 ∧
        v ∉ rowList (gridOfList hiddenDemo) r ∧
        ∀ j, j < 9 → ((gridOfList hiddenDemo r j = 0 ∧
          v ∈ get_candidates (gridOfList hiddenDemo) r j) ↔ j = c)) :=
  ⟨by decide, technique_detection_spec.2.2.1 (gridOfList hiddenDemo)
    (mk_hidden_row_tech 1 0 0) (by decide)⟩

/-! ### C9: applying a detected technique preserves validity -/

lemma run_detectors_eq (s : SolverState) :
    run_detectors s = (find_naked_single s).or (find_hidden_single s) := by
  cases h1 : find_naked_single s <;> cases h2 : find_hidden_single s <;>
    simp [run_detectors, techniqueDetectors, List.findSome?_cons, h1, h2,
      find_naked_pair, find_hidden_pair, find_pointing_pair,
      find_box_line_reduction, Option.or]

lemma find_hidden_single_eq (s : SolverState) :
    find_hidden_single s =
      (find_hidden_row s).or ((find_hidden_col s).or (find_hidden_box s)) := by
  show (match find_hidden_row s with
    | some t => some t
    | none => match find_hidden_col s with
      | some t => some t
      | none => find_hidden_box s) = _
  cases h1 : find_hidden_row s <;> cases h2 : find_hidden_col s <;>
    simp [Option.or]

/-- Every technique the detector returns on fresh candidates affects
exactly one cell, and that cell is on the board. -/
lemma detected_cells (g : Grid) (t : Technique)
    (h : run_detectors (freshState g) = some t) :
    ∃ r c, r < 9 ∧ c < 9 ∧ t.cells_affected = [(r, c)] := by
  rw [run_detectors_eq] at h
  cases h1 : find_naked_single (freshState g) with
  | some t1 =>
    rw [h1] at h
    have ht : t1 = t := Option.some.inj h
    subst ht
    obtain ⟨r, c, v, hr, hc, _, _, _, ht⟩ := (naked_single_iff g t1).1 h1
    exact ⟨r, c, hr, hc, by rw [ht]; rfl⟩
  | none =>
    rw [h1] at h
    have h2 : find_hidden_single (freshState g) = some t := h
    rw [find_hidden_single_eq] at h2
    cases hr1 : find_hidden_row (freshState g) with
    | some t1 =>
      rw [hr1] at h2
      have ht : t1 = t := Option.some.inj h2
      subst ht
      obtain ⟨v, r, c, ht, hr, hc, _⟩ := hidden_row_sound g t1 hr1
      exact ⟨r, c, hr, hc, by rw [ht]; rfl⟩
    | none =>
      rw [hr1] at h2
      have h3 : ((find_hidden_col (freshState g)).or
        (find_hidden_box (freshState g))) = some t := h2
      cases hc1 : find_hidden_col (freshState g) with
      | some t1 =>
        rw [hc1] at h3
        have ht : t1 = t := Option.some.inj h3
        subst ht
        obtain ⟨v, r, c, ht, hr, hc, _⟩ := hidden_col_sound g t1 hc1
        exact ⟨r, c, hr, hc, by rw [ht]; rfl⟩
      | none =>
        rw [hc1] at h3
        have h4 : find_hidden_box (freshState g) = some t := h3
        obtain ⟨v, bi, bj, r, c, ht, hbi, hbj, _, _, _, hdd, _⟩ :=
          hidden_box_sound g t h4
        obtain ⟨di, dj, hdi, hdj, hrd, hcd⟩ := hdd
        refine ⟨r, c, by omega, by omega, by rw [ht]; rfl⟩

lemma elt_mem_of_card_one (s : Finset ℕ) (h : s.card = 1) : elt s ∈ s := by
  obtain ⟨v, rfl⟩ := Finset.card_eq_one.1 h
  rw [elt_singleton]
  exact Finset.mem_singleton_self v

/-- Writing a candidate value into its (empty, in-range) cell keeps the
grid valid. -/
lemma is_valid_set_cell (g : Grid) (r c v : ℕ) (_hr : r < 9) (_hc : c < 9)
    (hv : v ∈ get_candidates g r c) (hval : is_valid g) :
    is_valid (set_cell g r c v) := by
  obtain ⟨h0, hv1, hv9, hnr, hnc, hnb⟩ := mem_get_candidates g r c v hv
  rw [is_valid_iff] at hval ⊢
  obtain ⟨hrow, hcol, hbox⟩ := hval
  refine ⟨?_, ?_, ?_⟩
  · intro i hi j1 j2 hj1 hj2 hne hz1 hz2
    by_cases e1 : i = r ∧ j1 = c
    · by_cases e2 : i = r ∧ j2 = c
      · exact absurd (e1.2.trans e2.2.symm) hne
      · rw [show set_cell g r c v i j1 = v from by simp [set_cell, e1],
          set_cell_ne g r c v i j2 e2]
        intro he
        apply hnr
        rw [he, e1.1]
        have hm : g i j2 ∈ row_vals g i := mem_row_vals g i j2 hj2
        rwa [e1.1] at hm
    · by_cases e2 : i = r ∧ j2 = c
      · rw [set_cell_ne g r c v i j1 e1,
          show set_cell g r c v i j2 = v from by simp [set_cell, e2]]
        intro he
        apply hnr
        rw [← he, e2.1]
        have hm : g i j1 ∈ row_vals g i := mem_row_vals g i j1 hj1
        rwa [e2.1] at hm
      · rw [set_cell_ne g r c v i j1 e1, set_cell_ne g r c v i j2 e2]
        rw [set_cell_ne g r c v i j1 e1] at hz1
        rw [set_cell_ne g r c v i j2 e2] at hz2
        exact hrow i hi j1 j2 hj1 hj2 hne hz1 hz2
  · intro c0 hc0 i1 i2 hi1 hi2 hne hz1 hz2
    by_cases e1 : i1 = r ∧ c0 = c
    · by_cases e2 : i2 = r ∧ c0 = c
      · exact absurd (e1.1.trans e2.1.symm) hne
      · rw [show set_cell g r c v i1 c0 = v from by simp [set_cell, e1],
          set_cell_ne g r c v i2 c0 e2]
        intro he
        apply hnc
        rw [he, e1.2]
        have hm : g i2 c0 ∈ col_vals g c0 := mem_col_vals g c0 i2 hi2
        rwa [e1.2] at hm
    · by_cases e2 : i2 = r ∧ c0 = c
      · rw [set_cell_ne g r c v i1 c0 e1,
          show set_cell g r c v i2 c0 = v from by simp [set_cell, e2]]
        intro he
        apply hnc
        rw [← he, e2.2]
        have hm : g i1 c0 ∈ col_vals g c0 := mem_col_vals g c0 i1 hi1
        rwa [e2.2] at hm
      · rw [set_cell_ne g r c v i1 c0 e1, set_cell_ne g r c v i2 c0 e2]
        rw [set_cell_ne g r c v i1 c0 e1] at hz1
        rw [set_cell_ne g r c v i2 c0 e2] at hz2
        exact hcol c0 hc0 i1 i2 hi1 hi2 hne hz1 hz2
  · intro bi bj hbi hbj k1 k2 hk1 hk2 hne hz1 hz2
    by_cases e1 : 3 * bi + k1 / 3 = r ∧ 3 * bj + k1 % 3 = c
    · by_cases e2 : 3 * bi + k2 / 3 = r ∧ 3 * bj + k2 % 3 = c
      · obtain ⟨a1, b1⟩ := e1
        obtain ⟨a2, b2⟩ := e2
        exact absurd (by omega : k1 = k2) hne
      · rw [show set_cell g r c v (3 * bi + k1 / 3) (3 * bj + k1 % 3) = v from
          by simp [set_cell, e1], set_cell_ne g r c v _ _ e2]
        intro he
        apply hnb
        rw [he]
        have hr3 : r / 3 * 3 = 3 * bi := by
          obtain ⟨a1, b1⟩ := e1
          omega
        have hc3 : c / 3 * 3 = 3 * bj := by
          obtain ⟨a1, b1⟩ := e1
          omega
        have hm := mem_box_vals g r c k2 hk2
        rwa [hr3, hc3] at hm
    · by_cases e2 : 3 * bi + k2 / 3 = r ∧ 3 * bj + k2 % 3 = c
      · rw [set_cell_ne g r c v _ _ e1,
          show set_cell g r c v (3 * bi + k2 / 3) (3 * bj + k2 % 3) = v from
            by simp [set_cell, e2]]
        intro he
        apply hnb
        rw [← he]
        have hr3 : r / 3 * 3 = 3 * bi := by
          obtain ⟨a2, b2⟩ := e2
          omega
        have hc3 : c / 3 * 3 = 3 * bj := by
          obtain ⟨a2, b2⟩ := e2
          omega
        have hm := mem_box_vals g r c k1 hk1
        rwa [hr3, hc3] at hm
      · rw [set_cell_ne g r c v _ _ e1, set_cell_ne g r c v _ _ e2]
        rw [set_cell_ne g r c v _ _ e1] at hz1
        rw [set_cell_ne g r c v _ _ e2] at hz2
        exact hbox bi bj hbi hbj k1 k2 hk1 hk2 hne hz1 hz2

/-- C9.  For a valid grid with freshly recomputed candidates, applying
any technique returned by the detector keeps the grid valid and never
changes a cell that was already non-zero. -/
theorem apply_detected_preserves_validity (g : Grid) (t : Technique)
    (hdet : run_detectors (freshState g) = some t) (hval : is_valid g) :
    is_valid (apply_technique (freshState g) t).grid ∧
      ∀ r c, g r c ≠ 0 → (apply_technique (freshState g) t).grid r c = g r c := by
  obtain ⟨r, c, hr, hc, hcells⟩ := detected_cells g t hdet
  unfold apply_technique
  rw [hcells, List.foldl_cons, List.foldl_nil]
  by_cases hcard : ((freshState g).cands r c).card = 1
  · have hcard2 : (get_candidates g r c).card = 1 := hcard
    have hv : elt (get_candidates g r c) ∈ get_candidates g r c :=
      elt_mem_of_card_one _ hcard2
    have h0 : g r c = 0 := (mem_get_candidates g r c _ hv).1
    have hgrid : (apply_step (freshState g) (r, c)).grid =
        set_cell g r c (elt (get_candidates g r c)) := by
      unfold apply_step
      rw [if_pos hcard]
      rfl
    rw [hgrid]
    constructor
    · exact is_valid_set_cell g r c _ hr hc hv hval
    · intro i j hij
      apply set_cell_ne
      rintro ⟨rfl, rfl⟩
      exact hij h0
  · rw [apply_step_eq_of_card_ne _ _ hcard]
    exact ⟨hval, fun _ _ _ => rfl⟩

/-- Witness for C9 on `hiddenDemo`: the detector fires, the grid is
valid, and applying the returned technique keeps it valid and leaves the
filled cells alone. -/
theorem apply_detected_preserves_validity_witness :
    (run_detectors (freshState (gridOfList hiddenDemo)) =
        some (mk_hidden_row_tech 1 0 0) ∧
      is_valid (gridOfList hiddenDemo)) ∧
    (is_valid (apply_technique (freshState (gridOfList hiddenDemo))
        (mk_hidden_row_tech 1 0 0)).grid ∧
      ∀ r c, gridOfList hiddenDemo r c ≠ 0 →
        (apply_technique (freshState (gridOfList hiddenDemo))
          (mk_hidden_row_tech 1 0 0)).grid r c = gridOfList hiddenDemo r c) :=
  ⟨⟨by decide, by decide⟩,
    apply_detected_preserves_validity (gridOfList hiddenDemo)
      (mk_hidden_row_tech 1 0 0) (by decide) (by decide)⟩

/-! ### C2 and C8: the removal loop keeps uniqueness, consistency and
the removal bound -/

lemma countP_eq_of_eq_on {α : Type} {p q : α → Bool} :
    ∀ (l : List α), (∀ a ∈ l, q a = p a) → l.countP q = l.countP p := by
  intro l
  induction l with
  | nil => intro _; rfl
  | cons hd tl ih =>
    intro h
    rw [List.countP_cons, List.countP_cons, h hd (List.mem_cons_self hd tl),
      ih (fun a ha => h a (List.mem_cons_of_mem _ ha))]

/-- If two predicates agree everywhere on a duplicate-free list except
possibly at one element, their counts differ by at most one. -/
lemma countP_le_succ_of_agree_off {α : Type} [DecidableEq α] {p q : α → Bool}
    (x : α) : ∀ {l : List α}, l.Nodup → (∀ a ∈ l, a ≠ x → q a = p a) →
      l.countP q ≤ l.countP p + 1 := by
  intro l
  induction l with
  | nil => intro _ _; simp
  | cons hd tl ih =>
    intro hnd hag
    rw [List.countP_cons, List.countP_cons]
    by_cases hx : hd = x
    · have hagtl : ∀ a ∈ tl, q a = p a := by
        intro a ha
        refine hag a (List.mem_cons_of_mem _ ha) (fun hax => ?_)
        exact (List.nodup_cons.1 hnd).1 (by rw [hx, ← hax]; exact ha)
      rw [countP_eq_of_eq_on tl hagtl]
      have h1 : (if q hd = true then 1 else 0) ≤ 1 := by split <;> omega
      omega
    · have hhd : q hd = p hd := hag hd (List.mem_cons_self _ _) hx
      have htl := ih (List.nodup_cons.1 hnd).2
        (fun a ha hax => hag a (List.mem_cons_of_mem _ ha) hax)
      rw [hhd]
      omega

lemma zeros_count_set_zero_le (p : Grid) (r c : ℕ) :
    zeros_count (set_cell p r c 0) ≤ zeros_count p + 1 := by
  unfold zeros_count
  refine countP_le_succ_of_agree_off (r, c) allCells_nodup ?_
  intro a _ hax
  have : set_cell p r c 0 a.1 a.2 = p a.1 a.2 :=
    set_cell_ne p r c 0 a.1 a.2 (fun h => hax (Prod.ext h.1 h.2))
  rw [this]

lemma filled_add_zeros (g : Grid) : filled_count g + zeros_count g = 81 := by
  unfold filled_count zeros_count
  have h := List.length_eq_countP_add_countP
    (fun rc : ℕ × ℕ => decide (g rc.1 rc.2 ≠ 0)) allCells
  have h2 : allCells.countP
      (fun a : ℕ × ℕ => decide (¬ decide (g a.1 a.2 ≠ 0) = true)) =
      allCells.countP (fun rc : ℕ × ℕ => decide (g rc.1 rc.2 = 0)) := by
    refine countP_eq_of_eq_on allCells ?_
    intro a _
    by_cases hz : g a.1 a.2 = 0 <;> simp [hz]
  rw [h2] at h
  have hlen : allCells.length = 81 := by decide
  omega

lemma first_empty_none_of_zeros (g : Grid) (h : zeros_count g = 0) :
    first_empty g = none := by
  unfold zeros_count at h
  unfold first_empty
  rw [List.find?_eq_none]
  intro x hx
  have := List.countP_eq_zero.1 h x hx
  simpa using this

lemma count_solutions_complete (g : Grid) (h : zeros_count g = 0) :
    count_solutions 82 g [] 2 = [g] := by
  show count_solutions (81 + 1) g [] 2 = [g]
  rw [count_solutions, if_neg (by simp : ¬ (2 ≤ ([] : List Grid).length)),
    first_empty_none_of_zeros g h]
  rfl

lemma has_unique_of_complete (g : Grid) (h : zeros_count g = 0) :
    has_unique_solution g := by
  unfold has_unique_solution
  rw [count_solutions_complete g h]
  rfl

/-- A grid that agrees with a valid grid except for cleared cells is
still valid. -/
lemma mask_valid {g p : Grid} (hm : ∀ i j, p i j = g i j ∨ p i j = 0)
    (hv : is_valid g) : is_valid p := by
  rw [is_valid_iff] at hv ⊢
  obtain ⟨hr, hc, hb⟩ := hv
  refine ⟨?_, ?_, ?_⟩
  · intro i hi j1 j2 hj1 hj2 hne hz1 hz2
    have h1 : p i j1 = g i j1 := (hm i j1).resolve_right hz1
    have h2 : p i j2 = g i j2 := (hm i j2).resolve_right hz2
    rw [h1, h2]
    exact hr i hi j1 j2 hj1 hj2 hne (h1 ▸ hz1) (h2 ▸ hz2)
  · intro c0 hc0 i1 i2 hi1 hi2 hne hz1 hz2
    have h1 : p i1 c0 = g i1 c0 := (hm i1 c0).resolve_right hz1
    have h2 : p i2 c0 = g i2 c0 := (hm i2 c0).resolve_right hz2
    rw [h1, h2]
    exact hc c0 hc0 i1 i2 hi1 hi2 hne (h1 ▸ hz1) (h2 ▸ hz2)
  · intro bi bj hbi hbj k1 k2 hk1 hk2 hne hz1 hz2
    have h1 : p (3 * bi + k1 / 3) (3 * bj + k1 % 3) =
        g (3 * bi + k1 / 3) (3 * bj + k1 % 3) := (hm _ _).resolve_right hz1
    have h2 : p (3 * bi + k2 / 3) (3 * bj + k2 % 3) =
        g (3 * bi + k2 / 3) (3 * bj + k2 % 3) := (hm _ _).resolve_right hz2
    rw [h1, h2]
    exact hb bi bj hbi hbj k1 k2 hk1 hk2 hne (h1 ▸ hz1) (h2 ▸ hz2)

/-- Invariant of the removal loop of `_remove_numbers`: the puzzle keeps
a unique solution, stays a mask of the complete grid, and the number of
cleared cells stays below both the removal counter and the difficulty
target. -/
lemma remove_fold_inv (g : Grid) (d : Difficulty) :
    ∀ (ps : List (ℕ × ℕ)) (p : Grid) (n : ℕ),
      has_unique_solution p → (∀ i j, p i j = g i j ∨ p i j = 0) →
      zeros_count p ≤ n → n ≤ cells_to_remove d →
      has_unique_solution (ps.foldl (remove_step d) (p, n)).1 ∧
      (∀ i j, (ps.foldl (remove_step d) (p, n)).1 i j = g i j ∨
        (ps.foldl (remove_step d) (p, n)).1 i j = 0) ∧
      zeros_count (ps.foldl (remove_step d) (p, n)).1 ≤
        (ps.foldl (remove_step d) (p, n)).2 ∧
      (ps.foldl (remove_step d) (p, n)).2 ≤ cells_to_remove d := by
  intro ps
  induction ps with
  | nil => exact fun p n h1 h2 h3 h4 => ⟨h1, h2, h3, h4⟩
  | cons rc tl ih =>
    intro p n h1 h2 h3 h4
    rw [List.foldl_cons]
    by_cases hbr : cells_to_remove d ≤ n
    · rw [show remove_step d (p, n) rc = (p, n) from by
        simp only [remove_step]
        rw [if_pos hbr]]
      exact ih p n h1 h2 h3 h4
    · by_cases hu : has_unique_solution (set_cell p rc.1 rc.2 0)
      · rw [show remove_step d (p, n) rc = (set_cell p rc.1 rc.2 0, n + 1) from by
          simp only [remove_step]
          rw [if_neg hbr, if_pos hu]]
        refine ih _ _ hu ?_ ?_ (by omega)
        · intro i j
          by_cases he : i = rc.1 ∧ j = rc.2
          · right
            simp [set_cell, he]
          · rw [set_cell_ne p rc.1 rc.2 0 i j he]
            exact h2 i j
        · have := zeros_count_set_zero_le p rc.1 rc.2
          omega
      · rw [show remove_step d (p, n) rc = (p, n) from by
          simp only [remove_step]
          rw [if_neg hbr, if_neg hu, set_cell_restore p rc.1 rc.2]]
        exact ih p n h1 h2 h3 h4

/-- C2.  Whenever the complete-grid phase yields a fully filled valid
grid (which `_fill_remaining` achieves for every diagonal-box filling by
Sudoku completability; the concrete witness below checks one run), the
generated puzzle for any difficulty and any removal order has exactly
one solution under the count-mode oracle capped at 2, and its non-zero
entries already satisfy the row, column and box no-duplicate
constraints. -/
theorem generate_puzzle_unique_and_consistent (d : Difficulty)
    (p1 p2 p3 : List ℕ) (ps : List (ℕ × ℕ))
    (h0 : zeros_count (generate_complete_grid p1 p2 p3) = 0)
    (hval : is_valid (generate_complete_grid p1 p2 p3)) :
    (count_solutions 82 (generate_puzzle d p1 p2 p3 ps) [] 2).length = 1 ∧
      is_valid (generate_puzzle d p1 p2 p3 ps) := by
  have hinv := remove_fold_inv (generate_complete_grid p1 p2 p3) d ps
    (generate_complete_grid p1 p2 p3) 0
    (has_unique_of_complete _ h0) (fun i j => Or.inl rfl)
    (Nat.le_of_eq h0) (Nat.zero_le _)
  exact ⟨hinv.1, mask_valid hinv.2.1 hval⟩

set_option maxRecDepth 40000 in
/-- One concrete run of the complete-grid phase: with the shuffle
results `genP1`, `genP2`, `genP3` the backtracking completion succeeds
and produces a fully filled valid grid. -/
lemma gen_concrete_complete :
    zeros_count (generate_complete_grid genP1 genP2 genP3) = 0 ∧
      is_valid (generate_complete_grid genP1 genP2 genP3) := by decide

/-- Witness for C2 on a concrete generator run (empty removal order). -/
theorem generate_puzzle_unique_and_consistent_witness :
    zeros_count (generate_complete_grid genP1 genP2 genP3) = 0 ∧
      (count_solutions 82
        (generate_puzzle Difficulty.expert genP1 genP2 genP3 []) [] 2).length = 1 ∧
      is_valid (generate_puzzle Difficulty.expert genP1 genP2 genP3 []) :=
  ⟨gen_concrete_complete.1,
    (generate_puzzle_unique_and_consistent Difficulty.expert genP1 genP2 genP3 []
      gen_concrete_complete.1 gen_concrete_complete.2).1,
    (generate_puzzle_unique_and_consistent Difficulty.expert genP1 genP2 genP3 []
      gen_concrete_complete.1 gen_concrete_complete.2).2⟩

/-- C8.  Whenever the complete-grid phase yields a fully filled grid,
the removal phase clears at most the difficulty target (30/40/50/60
cells), so the generated puzzle has between `81 - target` and 81
non-zero cells; in particular at Expert between 21 and 81 cells remain
non-zero. -/
theorem remove_numbers_bounds (d : Difficulty) (p1 p2 p3 : List ℕ)
    (ps : List (ℕ × ℕ))
    (h0 : zeros_count (generate_complete_grid p1 p2 p3) = 0) :
    zeros_count (generate_puzzle d p1 p2 p3 ps) ≤ cells_to_remove d ∧
    81 - cells_to_remove d ≤ filled_count (generate_puzzle d p1 p2 p3 ps) ∧
    filled_count (generate_puzzle d p1 p2 p3 ps) ≤ 81 ∧
    21 ≤ filled_count (generate_puzzle Difficulty.expert p1 p2 p3 ps) ∧
    cells_to_remove Difficulty.easy = 30 ∧
    cells_to_remove Difficulty.medium = 40 ∧
    cells_to_remove Difficulty.hard = 50 ∧
    cells_to_remove Difficulty.expert = 60 := by
  have hinv := remove_fold_inv (generate_complete_grid p1 p2 p3) d ps
    (generate_complete_grid p1 p2 p3) 0
    (has_unique_of_complete _ h0) (fun i j => Or.inl rfl)
    (Nat.le_of_eq h0) (Nat.zero_le _)
  have hz : zeros_count (generate_puzzle d p1 p2 p3 ps) ≤ cells_to_remove d := by
    have h1 : zeros_count (generate_puzzle d p1 p2 p3 ps) ≤
        (ps.foldl (remove_step d) (generate_complete_grid p1 p2 p3, 0)).2 :=
      hinv.2.2.1
    have h2 := hinv.2.2.2
    omega
  have hfz := filled_add_zeros (generate_puzzle d p1 p2 p3 ps)
  have hinvE := remove_fold_inv (generate_complete_grid p1 p2 p3)
    Difficulty.expert ps (generate_complete_grid p1 p2 p3) 0
    (has_unique_of_complete _ h0) (fun i j => Or.inl rfl)
    (Nat.le_of_eq h0) (Nat.zero_le _)
  have hzE : zeros_count (generate_puzzle Difficulty.expert p1 p2 p3 ps) ≤ 60 := by
    have h1 : zeros_count (generate_puzzle Difficulty.expert p1 p2 p3 ps) ≤
        (ps.foldl (remove_step Difficulty.expert)
          (generate_complete_grid p1 p2 p3, 0)).2 :=
      hinvE.2.2.1
    have h2 := hinvE.2.2.2
    have h3 : cells_to_remove Difficulty.expert = 60 := rfl
    omega
  have hfzE := filled_add_zeros (generate_puzzle Difficulty.expert p1 p2 p3 ps)
  exact ⟨hz, by omega, by omega, by omega, rfl, rfl, rfl, rfl⟩

/-- Witness for C8 on a concrete generator run. -/
theorem remove_numbers_bounds_witness :
    zeros_count (generate_complete_grid genP1 genP2 genP3) = 0 ∧
      zeros_count (generate_puzzle Difficulty.hard genP1 genP2 genP3 []) ≤
        cells_to_remove Difficulty.hard :=
  ⟨gen_concrete_complete.1,
    (remove_numbers_bounds Difficulty.hard genP1 genP2 genP3 []
      gen_concrete_complete.1).1⟩
